import Mathlib

namespace Arcanum

abbrev Path := String

/-- Lexicographic order on strings by their character lists.  This is the
iteration order of a Rust BTreeSet of strings (byte lexicographic, which agrees
with code point order on the ASCII identifiers used here). -/
def strle (a b : String) : Prop := a.data ≤ b.data

instance : DecidableRel strle := fun a b => inferInstanceAs (Decidable (a.data ≤ b.data))

instance : IsTrans String strle := ⟨fun _ _ _ h1 h2 => le_trans h1 h2⟩

instance : IsAntisymm String strle := ⟨fun _ _ h1 h2 => String.ext (le_antisymm h1 h2)⟩

instance : IsTotal String strle := ⟨fun a b => le_total a.data b.data⟩

instance : IsRefl String strle := ⟨fun a => le_refl a.data⟩

/-- The sorted list of elements of a multiset of strings. -/
def msort (s : Multiset String) : List String :=
  Quot.liftOn s (List.insertionSort strle) fun _ _ h =>
    List.eq_of_perm_of_sorted
      ((List.perm_insertionSort strle _).trans (h.trans (List.perm_insertionSort strle _).symm))
      (List.sorted_insertionSort strle _) (List.sorted_insertionSort strle _)

/-- The sorted, duplicate free list of elements of a finite set of strings:
the iteration order of the BTreeSet holding that set. -/
def fsort (s : Finset String) : List String := msort s.val

/-- A declared secret file, as deserialized from the cache JSON. -/
structure ArcanumFile where
  dest : Path
  source : Path
  directory_permissions : String
  make_directory : Bool
  group : String
  owner : String
  permissions : String
  recipients : List String
deriving DecidableEq

/-- One scope: a map from logical names to file entries plus admin recipients.
The JSON map is modelled as an association list in an arbitrary order. -/
structure ArcanumConfig where
  files : List (String × ArcanumFile)
  admin_recipients : List String
deriving DecidableEq

/-- The cached configuration tree with its four optional dimensions. -/
structure CacheFile where
  nixos : Option (List (String × ArcanumConfig))
  dev_shells : Option (List (String × List (String × ArcanumConfig)))
  home_manager : Option (List (String × List (String × ArcanumConfig)))
  flake : Option ArcanumConfig
deriving DecidableEq

/-- One pass of the per-scope loop body of recipients_for_file: for every file
entry whose source equals the queried path, insert the entry recipients and the
scope admin recipients into the accumulated set. -/
def scanConfig (source : Path) (cfg : ArcanumConfig) (acc : Finset String) : Finset String :=
  cfg.files.foldl
    (fun acc kv =>
      if source = kv.2.source then
        (acc ∪ kv.2.recipients.toFinset) ∪ cfg.admin_recipients.toFinset
      else acc)
    acc

/-- Tagged recipient, as produced at the encryption boundary. -/
inductive Recipient where
  | publicKey (s : String)
  | sshHost (s : String)
deriving DecidableEq

/-- Tagging of one identifier string: age public key when the string carries the
age1 marker, otherwise an ssh host style recipient. -/
def startsWithB (s pat : String) : Bool := List.isPrefixOf pat.data s.data

def boxRecipient (r : String) : Recipient :=
  if startsWithB r "age1" then .publicKey r else .sshHost r

/-- The string-set stage of CacheFile::recipients_for_file.  The four unwrap
calls on the optional dimensions are modelled by the Option bind: a tree with an
absent dimension makes the whole call panic, modelled as none.  The BTreeSet is
modelled as a Finset emitted in sorted order. -/
def CacheFile.recipient_strings (c : CacheFile) (source : Path) : Option (List String) := do
  let flake ← c.flake
  let nixos ← c.nixos
  let home_manager ← c.home_manager
  let dev_shells ← c.dev_shells
  let s1 := scanConfig source flake ∅
  let s2 := nixos.foldl (fun acc kv => scanConfig source kv.2 acc) s1
  let s3 := home_manager.foldl
    (fun acc kv => kv.2.foldl (fun acc kv2 => scanConfig source kv2.2 acc) acc) s2
  let s4 := dev_shells.foldl
    (fun acc kv => kv.2.foldl (fun acc kv2 => scanConfig source kv2.2 acc) acc) s3
  pure (fsort s4)

/-- CacheFile::recipients_for_file: the sorted deduplicated strings, boxed. -/
def CacheFile.recipients_for_file (c : CacheFile) (source : Path) : Option (List Recipient) :=
  (c.recipient_strings source).map (fun l => l.map boxRecipient)

/-! ### The resolution set, spelled the way the specification describes it -/

/-- Union of the contributions of the elements of a list. -/
def unionList (g : α → Finset String) (l : List α) : Finset String :=
  l.foldr (fun x s => g x ∪ s) ∅

/-- Every scope of the tree, across the four dimensions, in declaration order. -/
def specScopes (c : CacheFile) : List ArcanumConfig :=
  c.flake.toList
    ++ (c.nixos.getD []).map Prod.snd
    ++ ((c.home_manager.getD []).map Prod.snd).flatMap (fun m => m.map Prod.snd)
    ++ ((c.dev_shells.getD []).map Prod.snd).flatMap (fun m => m.map Prod.snd)

/-- Contribution of one scope, spelled as in the specification: for each file
entry whose source path equals the queried path, that entry recipients together
with the scope admin recipients. -/
def specScopeContrib (p : Path) (cfg : ArcanumConfig) : Finset String :=
  ((cfg.files.filter (fun kv => kv.2.source = p)).flatMap
    (fun kv => kv.2.recipients ++ cfg.admin_recipients)).toFinset

/-- The specification resolution set: union over every scope of the tree. -/
def specResolve (c : CacheFile) (p : Path) : Finset String :=
  unionList (specScopeContrib p) (specScopes c)

/-! ### Fold characterisation of the code side -/

/-- Contribution of one file entry inside a scope with the given admins. -/
def entryContrib (p : Path) (admins : List String) (kv : String × ArcanumFile) : Finset String :=
  if p = kv.2.source then kv.2.recipients.toFinset ∪ admins.toFinset else ∅

/-- Contribution of one scope, as accumulated by the code loop. -/
def cfgContrib (p : Path) (cfg : ArcanumConfig) : Finset String :=
  unionList (entryContrib p cfg.admin_recipients) cfg.files

/-- Contribution of one nested map of scopes. -/
def mapContrib (p : Path) (m : List (String × ArcanumConfig)) : Finset String :=
  unionList (fun kv => cfgContrib p kv.2) m

theorem unionList_nil (g : α → Finset String) : unionList g [] = ∅ := rfl

theorem unionList_cons (g : α → Finset String) (x : α) (l : List α) :
    unionList g (x :: l) = g x ∪ unionList g l := rfl

theorem foldl_acc_union {α : Type} (f : Finset String → α → Finset String)
    (h : α → Finset String) (hf : ∀ acc x, f acc x = acc ∪ h x) :
    ∀ (l : List α) (acc : Finset String), l.foldl f acc = acc ∪ unionList h l := by
  intro l
  induction l with
  | nil => intro acc; simp [unionList_nil]
  | cons x xs ih =>
      intro acc
      simp only [List.foldl_cons, hf, ih, unionList_cons, Finset.union_assoc]

theorem scanConfig_eq (p : Path) (cfg : ArcanumConfig) (acc : Finset String) :
    scanConfig p cfg acc = acc ∪ cfgContrib p cfg := by
  unfold scanConfig cfgContrib
  apply foldl_acc_union
  intro a kv
  by_cases h : p = kv.2.source <;> simp [entryContrib, h, Finset.union_assoc]

theorem unionList_append (g : α → Finset String) (l1 l2 : List α) :
    unionList g (l1 ++ l2) = unionList g l1 ∪ unionList g l2 := by
  induction l1 with
  | nil => simp [unionList_nil, unionList_cons]
  | cons x xs ih => simp [unionList_cons, ih, Finset.union_assoc]

theorem unionList_map (g : β → Finset String) (f : α → β) (l : List α) :
    unionList g (l.map f) = unionList (fun x => g (f x)) l := by
  induction l with
  | nil => rfl
  | cons x xs ih => simp [unionList_cons, ih]

theorem unionList_flatMap (g : β → Finset String) (f : α → List β) (l : List α) :
    unionList g (l.flatMap f) = unionList (fun x => unionList g (f x)) l := by
  induction l with
  | nil => rfl
  | cons x xs ih => simp [unionList_cons, List.flatMap_cons, unionList_append, ih]

theorem specScopeContrib_eq_cfgContrib (p : Path) (cfg : ArcanumConfig) :
    specScopeContrib p cfg = cfgContrib p cfg := by
  unfold specScopeContrib cfgContrib
  induction cfg.files with
  | nil => rfl
  | cons kv rest ih =>
      rw [List.filter_cons]
      by_cases h : kv.2.source = p
      · rw [if_pos (by simpa using h), List.flatMap_cons, List.toFinset_append,
          unionList_cons, entryContrib, if_pos h.symm, ih, List.toFinset_append,
          Finset.union_assoc]
      · rw [if_neg (by simpa using h), unionList_cons, entryContrib,
          if_neg (fun hp => h hp.symm), ih, Finset.empty_union]

/-- The code side string set computation, characterised as the specification
union, for a tree in which all four dimensions are present. -/
theorem recipient_strings_eq_spec (flake : ArcanumConfig)
    (nixos : List (String × ArcanumConfig))
    (hm ds : List (String × List (String × ArcanumConfig))) (p : Path) :
    CacheFile.recipient_strings ⟨some nixos, some ds, some hm, some flake⟩ p
      = some (fsort (specResolve ⟨some nixos, some ds, some hm, some flake⟩ p)) := by
  have hnix : ∀ (l : List (String × ArcanumConfig)) (acc : Finset String),
      l.foldl (fun acc kv => scanConfig p kv.2 acc) acc = acc ∪ mapContrib p l := by
    intro l acc
    apply foldl_acc_union
    intro a kv
    exact scanConfig_eq p kv.2 a
  have hnest : ∀ (l : List (String × List (String × ArcanumConfig))) (acc : Finset String),
      l.foldl (fun acc kv => kv.2.foldl (fun acc kv2 => scanConfig p kv2.2 acc) acc) acc
        = acc ∪ unionList (fun kv => mapContrib p kv.2) l := by
    intro l acc
    apply foldl_acc_union
    intro a kv
    exact hnix kv.2 a
  show some _ = some _
  congr 1
  congr 1
  rw [scanConfig_eq, hnix, hnest, hnest]
  unfold specResolve specScopes
  simp only [Option.toList_some, Option.getD_some, unionList_append, unionList_map,
    unionList_flatMap, unionList_cons, unionList_nil, specScopeContrib_eq_cfgContrib]
  show _ = cfgContrib p flake ∪ ∅ ∪ _ ∪ _ ∪ _
  simp only [mapContrib, Finset.union_empty, Finset.empty_union, Finset.union_assoc]

/-! ### Independence of map iteration order -/

theorem unionList_perm (g : α → Finset String) {l l2 : List α} (h : l.Perm l2) :
    unionList g l = unionList g l2 := by
  induction h with
  | nil => rfl
  | cons x _ ih => simp only [unionList_cons, ih]
  | swap x y l =>
      simp only [unionList_cons, ← Finset.union_assoc]
      rw [Finset.union_comm (g y) (g x)]
  | trans _ _ ih1 ih2 => exact ih1.trans ih2

theorem unionList_congr {R : α → β → Prop} {g : α → Finset String} {g2 : β → Finset String}
    (hg : ∀ a b, R a b → g a = g2 b) :
    ∀ {l : List α} {l2 : List β}, List.Forall₂ R l l2 → unionList g l = unionList g2 l2 := by
  intro l l2 h
  induction h with
  | nil => rfl
  | cons hx _ ih => simp only [unionList_cons, hg _ _ hx, ih]

/-- Two optional values related pointwise. -/
def OptRel (R : α → β → Prop) : Option α → Option β → Prop
  | none, none => True
  | some a, some b => R a b
  | _, _ => False

/-- Two JSON maps holding the same keyed entries, possibly listed in a
different order, with values related by R. -/
def MapPerm (R : α → β → Prop) (l : List (String × α)) (l2 : List (String × β)) : Prop :=
  ∃ m, l.Perm m ∧ List.Forall₂ (fun x y => x.1 = y.1 ∧ R x.2 y.2) m l2

/-- Two scopes with the same entries up to file map order. -/
def ConfigPerm (a b : ArcanumConfig) : Prop :=
  a.files.Perm b.files ∧ a.admin_recipients = b.admin_recipients

/-- Two cache trees equal up to iteration order of every map. -/
def CachePerm (c c2 : CacheFile) : Prop :=
  OptRel (MapPerm ConfigPerm) c.nixos c2.nixos
    ∧ OptRel (MapPerm (MapPerm ConfigPerm)) c.dev_shells c2.dev_shells
    ∧ OptRel (MapPerm (MapPerm ConfigPerm)) c.home_manager c2.home_manager
    ∧ OptRel ConfigPerm c.flake c2.flake

theorem unionList_mapPerm {R : α → β → Prop} {G : String × α → Finset String}
    {G2 : String × β → Finset String}
    (hG : ∀ (a : String × α) (b : String × β), R a.2 b.2 → G a = G2 b)
    {l : List (String × α)} {l2 : List (String × β)} (h : MapPerm R l l2) :
    unionList G l = unionList G2 l2 := by
  obtain ⟨m, hp, hf⟩ := h
  refine (unionList_perm _ hp).trans ?_
  exact unionList_congr (fun a b hab => hG a b hab.2) hf

theorem cfgContrib_configPerm {a b : ArcanumConfig} (p : Path) (h : ConfigPerm a b) :
    cfgContrib p a = cfgContrib p b := by
  unfold cfgContrib
  rw [h.2]
  exact unionList_perm _ h.1

theorem mapContrib_mapPerm {m m2 : List (String × ArcanumConfig)} (p : Path)
    (h : MapPerm ConfigPerm m m2) : mapContrib p m = mapContrib p m2 := by
  unfold mapContrib
  exact unionList_mapPerm (fun _ _ hab => cfgContrib_configPerm p hab) h

/-- The string set computed by recipients_for_file does not depend on the
iteration order of any of the maps in the tree. -/
theorem recipient_strings_cachePerm {c c2 : CacheFile} (p : Path) (h : CachePerm c c2) :
    CacheFile.recipient_strings c p = CacheFile.recipient_strings c2 p := by
  obtain ⟨c_nixos, c_ds, c_hm, c_flake⟩ := c
  obtain ⟨d_nixos, d_ds, d_hm, d_flake⟩ := c2
  obtain ⟨hn, hd, hh, hf⟩ := h
  cases c_flake with
  | none => cases d_flake with
    | none => rfl
    | some b => exact absurd hf (by simp [OptRel])
  | some fa => cases d_flake with
    | none => exact absurd hf (by simp [OptRel])
    | some fb =>
      cases c_nixos with
      | none => cases d_nixos with
        | none => rfl
        | some nb => exact absurd hn (by simp [OptRel])
      | some na => cases d_nixos with
        | none => exact absurd hn (by simp [OptRel])
        | some nb =>
          cases c_hm with
          | none => cases d_hm with
            | none => rfl
            | some hb => exact absurd hh (by simp [OptRel])
          | some ha => cases d_hm with
            | none => exact absurd hh (by simp [OptRel])
            | some hb =>
              cases c_ds with
              | none => cases d_ds with
                | none => rfl
                | some db => exact absurd hd (by simp [OptRel])
              | some da => cases d_ds with
                | none => exact absurd hd (by simp [OptRel])
                | some db =>
                  rw [recipient_strings_eq_spec, recipient_strings_eq_spec]
                  have hf2 : ConfigPerm fa fb := hf
                  have hn2 : MapPerm ConfigPerm na nb := hn
                  have hh2 : MapPerm (MapPerm ConfigPerm) ha hb := hh
                  have hd2 : MapPerm (MapPerm ConfigPerm) da db := hd
                  have e0 : cfgContrib p fa = cfgContrib p fb := cfgContrib_configPerm p hf2
                  have e1 : unionList (fun kv : String × ArcanumConfig => cfgContrib p kv.2) na
                      = unionList (fun kv : String × ArcanumConfig => cfgContrib p kv.2) nb :=
                    unionList_mapPerm (fun _ _ hab => cfgContrib_configPerm p hab) hn2
                  have e2 : unionList
                        (fun kv : String × List (String × ArcanumConfig) =>
                          unionList (fun kv2 : String × ArcanumConfig => cfgContrib p kv2.2) kv.2) ha
                      = unionList
                        (fun kv : String × List (String × ArcanumConfig) =>
                          unionList (fun kv2 : String × ArcanumConfig => cfgContrib p kv2.2) kv.2) hb :=
                    unionList_mapPerm (fun _ _ hab => mapContrib_mapPerm p hab) hh2
                  have e3 : unionList
                        (fun kv : String × List (String × ArcanumConfig) =>
                          unionList (fun kv2 : String × ArcanumConfig => cfgContrib p kv2.2) kv.2) da
                      = unionList
                        (fun kv : String × List (String × ArcanumConfig) =>
                          unionList (fun kv2 : String × ArcanumConfig => cfgContrib p kv2.2) kv.2) db :=
                    unionList_mapPerm (fun _ _ hab => mapContrib_mapPerm p hab) hd2
                  congr 1
                  congr 1
                  unfold specResolve specScopes
                  simp only [Option.toList_some, Option.getD_some, unionList_append,
                    unionList_map, unionList_flatMap, unionList_cons, unionList_nil,
                    specScopeContrib_eq_cfgContrib]
                  rw [e0, e1, e2, e3]

theorem optRel_refl {R : α → α → Prop} (hR : ∀ a, R a a) : ∀ o : Option α, OptRel R o o
  | none => trivial
  | some a => hR a

theorem configPerm_refl (a : ArcanumConfig) : ConfigPerm a a := ⟨List.Perm.refl _, rfl⟩

theorem mapPerm_refl {R : α → α → Prop} (hR : ∀ a, R a a) (l : List (String × α)) :
    MapPerm R l l :=
  ⟨l, List.Perm.refl l, List.forall₂_same.mpr fun x _ => ⟨rfl, hR x.2⟩⟩

theorem cachePerm_refl (c : CacheFile) : CachePerm c c :=
  ⟨optRel_refl (mapPerm_refl configPerm_refl) c.nixos,
   optRel_refl (mapPerm_refl (mapPerm_refl configPerm_refl)) c.dev_shells,
   optRel_refl (mapPerm_refl (mapPerm_refl configPerm_refl)) c.home_manager,
   optRel_refl configPerm_refl c.flake⟩

/-- C1: over a cache tree in which every dimension is present, recipient
resolution returns exactly the sorted, deduplicated union, over every scope in
every dimension holding a file entry whose source path equals the queried path,
of that entry recipients together with that scope admin recipients; and the
result does not depend on the iteration order of any of the maps. -/
theorem resolution_union_property
    (flake : ArcanumConfig) (nixos : List (String × ArcanumConfig))
    (hm ds : List (String × List (String × ArcanumConfig))) (p : Path) (c2 : CacheFile)
    (hperm : CachePerm ⟨some nixos, some ds, some hm, some flake⟩ c2) :
    CacheFile.recipient_strings ⟨some nixos, some ds, some hm, some flake⟩ p
        = some (fsort (specResolve ⟨some nixos, some ds, some hm, some flake⟩ p))
      ∧ CacheFile.recipient_strings c2 p
        = CacheFile.recipient_strings ⟨some nixos, some ds, some hm, some flake⟩ p :=
  ⟨recipient_strings_eq_spec flake nixos hm ds p,
   (recipient_strings_cachePerm p hperm).symm⟩

/-- A file entry used by the concrete examples: a secret at source path /s
readable by age1def, in a scope whose admin is age1abc. -/
def fileEx : ArcanumFile :=
  { dest := "/run/secret", source := "/s", directory_permissions := "0755",
    make_directory := true, group := "root", owner := "root", permissions := "0400",
    recipients := ["age1def"] }

def flakeEx : ArcanumConfig := { files := [("f", fileEx)], admin_recipients := ["age1abc"] }

def cacheEx : CacheFile :=
  { nixos := some [], dev_shells := some [], home_manager := some [], flake := some flakeEx }

theorem resolution_union_property_witness :
    CacheFile.recipient_strings cacheEx "/s" = some ["age1abc", "age1def"]
      ∧ CacheFile.recipient_strings cacheEx "/s"
        = some (fsort (specResolve cacheEx "/s")) := by
  have h := resolution_union_property flakeEx [] [] [] "/s" cacheEx (cachePerm_refl cacheEx)
  exact ⟨h.1.trans (by decide), h.1⟩

/-- Example tree in which the nixos dimension is absent (not applicable). -/
def cacheNoNixos : CacheFile :=
  { nixos := none, dev_shells := some [], home_manager := some [], flake := some flakeEx }

/-- C2: the code is not total over well formed trees with an absent dimension:
on a tree whose nixos dimension is None the resolution panics (modelled as
none, from the unwrap on the absent option), even though the specification
union over the present dimensions is well defined and nonempty. -/
theorem resolution_panics_on_absent_dimension :
    CacheFile.recipient_strings cacheNoNixos "/s" = none
      ∧ fsort (specResolve cacheNoNixos "/s") = ["age1abc", "age1def"] :=
  ⟨rfl, by decide⟩

/-! ### Shallow embedding of the command flows of main

File contents are modelled as strings (the lossy UTF-8 view of the bytes the
program moves around; the conversions in the source are identities on the
modelled values).  External collaborators (file system, cipher, git, editor)
are oracles supplied in an environment record.  Process termination is an exit
status: a plain return from main is a normal exit with status 0, a call of
process::exit(1) is a normal exit with status 1, and a panic from an unwrap is
the abnormal exit of a panicking process. -/

abbrev Content := String

/-- How the process ends. -/
inductive Exit where
  | normal (code : Nat)
  | panicked
deriving DecidableEq

/-- Result of one decryption attempt by the cipher collaborator. -/
inductive DecResult where
  | ok (plaintext : Content)
  | noIdentity
  | badFormat
deriving DecidableEq

/-- Observable external actions of one invocation, in program order. -/
inductive Event where
  | resolveRecipients
  | readFile (p : Path)
  | decryptAttempt
  | writeTemp (data : Content)
  | writeFile (p : Path) (data : Content)
  | writeStdout (data : Content)
  | gitStateCheck
  | gitShow (arg : String)
  | runMergeFile
  | launchEditor
  | skipNotice (p : Path)
deriving DecidableEq

/-- Exit status together with the trace of observable actions. -/
structure RunResult where
  exit : Exit
  events : List Event
deriving DecidableEq

/-- A step of a flow: a value, or early termination of the process. -/
inductive Step (α : Type) where
  | ok (a : α)
  | abort (e : Exit)
deriving DecidableEq

/-- The oracles of one invocation: file system snapshot, cipher and identity
behaviour, editor behaviour and git behaviour. -/
structure Env where
  fs : Path → Option Content
  dec : Content → DecResult
  stdin : Content
  encrypt : List Recipient → Content → Content
  editorResult : Content
  stripRoot : Path → Option Path
  mergeHead : Bool
  rebaseApply : Bool
  rebaseMerge : Bool
  git : String → Option (Bool × Content)
  origCommitPathExists : Bool
  origCommitRead : Option String
  oursTempWriteOk : Bool
  theirsTempWriteOk : Bool
  mergeFile : Content → Content → Option (Bool × Content)
  mergeEditor : Content → Content

/-- Rust contains() on strings: substring containment. -/
def containsSub (s pat : String) : Bool := decide (pat.data <:+: s.data)

/-- plaintext_from_ciphertext_source: a missing source yields an empty result;
a present source is read and decrypted, where a failed decryption exits with
status 1 (no usable identity) and malformed armor panics. -/
def plaintext_from_ciphertext_source (env : Env) (source : Path) : Step Content × List Event :=
  match env.fs source with
  | some encrypted =>
      match env.dec encrypted with
      | .ok d => (.ok d, [.readFile source, .decryptAttempt])
      | .noIdentity => (.abort (.normal 1), [.readFile source, .decryptAttempt])
      | .badFormat => (.abort .panicked, [.readFile source, .decryptAttempt])
  | none => (.ok "", [])

/-- Decryption of a freshly written temporary file holding known bytes: the
file exists, so only the cipher oracle decides the outcome. -/
def decryptContent (env : Env) (data : Content) : Step Content :=
  match env.dec data with
  | .ok d => .ok d
  | .noIdentity => .abort (.normal 1)
  | .badFormat => .abort .panicked

/-- ciphertext_from_plaintext_buffer: Encryptor::with_recipients returns None
on an empty recipient list, and the unwrap on it panics. -/
def ciphertext_from_plaintext_buffer (env : Env) (recipients : List Recipient)
    (data : Content) : Step Content :=
  if recipients.isEmpty then .abort .panicked else .ok (env.encrypt recipients data)

/-- The writes performed on real (non temporary) files, in order. -/
def writeEvents (l : List Event) : List (Path × Content) :=
  l.filterMap fun e =>
    match e with
    | .writeFile p d => some (p, d)
    | _ => none

/-- The writes of a run. -/
def writesOf (r : RunResult) : List (Path × Content) := writeEvents r.events

/-- The Encrypt command flow. -/
def runEncrypt (cache : CacheFile) (plaintext ciphertext : Path) (env : Env) : RunResult :=
  let dataEv : Option Content × List Event :=
    if plaintext = "-" then (some env.stdin, [])
    else
      match env.fs plaintext with
      | some d => (some d, [.readFile plaintext])
      | none => (none, [])
  match dataEv with
  | (none, evs) => ⟨.normal 0, evs⟩
  | (some data, evs) =>
    match cache.recipients_for_file ciphertext with
    | none => ⟨.panicked, evs ++ [.resolveRecipients]⟩
    | some recipients =>
      if recipients.isEmpty then ⟨.normal 0, evs ++ [.resolveRecipients]⟩
      else
        match ciphertext_from_plaintext_buffer env recipients data with
        | .abort e => ⟨e, evs ++ [.resolveRecipients]⟩
        | .ok cdata => ⟨.normal 0, evs ++ [.resolveRecipients, .writeFile ciphertext cdata]⟩

/-- The Decrypt command flow. -/
def runDecrypt (ciphertext plaintext : Path) (env : Env) : RunResult :=
  if plaintext = "-" then
    match plaintext_from_ciphertext_source env ciphertext with
    | (.ok d, evs) => ⟨.normal 0, evs ++ [.writeStdout d]⟩
    | (.abort e, evs) => ⟨e, evs⟩
  else
    match plaintext_from_ciphertext_source env ciphertext with
    | (.ok d, evs) =>
        if d = "" then ⟨.normal 0, evs⟩
        else ⟨.normal 0, evs ++ [.writeFile plaintext d]⟩
    | (.abort e, evs) => ⟨e, evs⟩

/-- The Edit command flow. -/
def runEdit (cache : CacheFile) (ciphertext : Path) (env : Env) : RunResult :=
  match cache.recipients_for_file ciphertext with
  | none => ⟨.panicked, [.resolveRecipients]⟩
  | some recipients =>
    if recipients.isEmpty then ⟨.normal 1, [.resolveRecipients]⟩
    else
      match plaintext_from_ciphertext_source env ciphertext with
      | (.abort e, evs) => ⟨e, .resolveRecipients :: evs⟩
      | (.ok original, evs) =>
        let evs1 := .resolveRecipients :: evs ++ [.writeTemp original, .launchEditor]
        let edited := env.editorResult
        if edited = "" then ⟨.normal 0, evs1⟩
        else if edited = original then ⟨.normal 0, evs1⟩
        else
          match ciphertext_from_plaintext_buffer env recipients edited with
          | .abort e => ⟨e, evs1⟩
          | .ok cdata =>
            let evs2 := evs1 ++ [.writeTemp cdata]
            match decryptContent env cdata with
            | .abort e => ⟨e, evs2 ++ [.decryptAttempt]⟩
            | .ok _ => ⟨.normal 0, evs2 ++ [.decryptAttempt, .writeFile ciphertext cdata]⟩

/-- The Rekey command flow for a single named file. -/
def runRekeySingle (cache : CacheFile) (ciphertext : Path) (env : Env) : RunResult :=
  match plaintext_from_ciphertext_source env ciphertext with
  | (.abort e, evs) => ⟨e, evs⟩
  | (.ok data, evs) =>
    match cache.recipients_for_file ciphertext with
    | none => ⟨.panicked, evs ++ [.resolveRecipients]⟩
    | some recipients =>
      match ciphertext_from_plaintext_buffer env recipients data with
      | .abort e => ⟨e, evs ++ [.resolveRecipients]⟩
      | .ok cdata => ⟨.normal 0, evs ++ [.resolveRecipients, .writeFile ciphertext cdata]⟩

/-- Enumeration of every file entry source across the tree whose source file
exists on disk, dimension by dimension, then sorted and deduplicated. -/
def filesToRekey (cache : CacheFile) (env : Env) : List Path :=
  let l1 := match cache.flake with
    | some fc => (fc.files.filter (fun kv => (env.fs kv.2.source).isSome)).map
        (fun kv => kv.2.source)
    | none => []
  let l2 := match cache.nixos with
    | some m => m.flatMap (fun kv =>
        (kv.2.files.filter (fun kv2 => (env.fs kv2.2.source).isSome)).map
          (fun kv2 => kv2.2.source))
    | none => []
  let l3 := match cache.home_manager with
    | some m => m.flatMap (fun kv => kv.2.flatMap (fun kv2 =>
        (kv2.2.files.filter (fun kv3 => (env.fs kv3.2.source).isSome)).map
          (fun kv3 => kv3.2.source)))
    | none => []
  let l4 := match cache.dev_shells with
    | some m => m.flatMap (fun kv => kv.2.flatMap (fun kv2 =>
        (kv2.2.files.filter (fun kv3 => (env.fs kv3.2.source).isSome)).map
          (fun kv3 => kv3.2.source)))
    | none => []
  (List.insertionSort strle (l1 ++ l2 ++ l3 ++ l4)).destutter (· ≠ ·)

/-- The per file loop of the bulk rekey: decrypt, resolve, skip when the
resolved set is empty, otherwise re-encrypt and overwrite. -/
def rekeyLoop (cache : CacheFile) (env : Env) : List Path → List Event → RunResult
  | [], evs => ⟨.normal 0, evs⟩
  | f :: rest, evs =>
    match plaintext_from_ciphertext_source env f with
    | (.abort e, evs2) => ⟨e, evs ++ evs2⟩
    | (.ok data, evs2) =>
      match cache.recipients_for_file f with
      | none => ⟨.panicked, evs ++ evs2 ++ [.resolveRecipients]⟩
      | some recipients =>
        if recipients.isEmpty then
          rekeyLoop cache env rest (evs ++ evs2 ++ [.resolveRecipients, .skipNotice f])
        else
          match ciphertext_from_plaintext_buffer env recipients data with
          | .abort e => ⟨e, evs ++ evs2 ++ [.resolveRecipients]⟩
          | .ok cdata =>
            rekeyLoop cache env rest (evs ++ evs2 ++ [.resolveRecipients, .writeFile f cdata])

/-- The Rekey command flow over all enumerated files. -/
def runRekeyAll (cache : CacheFile) (env : Env) : RunResult :=
  let files := filesToRekey cache env
  if files.isEmpty then ⟨.normal 0, []⟩
  else rekeyLoop cache env files []

/-- The conflict marked document synthesized for manual resolution, built by
the push_str sequence of the source. -/
def conflict_content (in_merge : Bool) (ours_plaintext theirs_plaintext : Content) : String :=
  let ours_label := if in_merge then "HEAD (ours)" else "Current (ours)"
  let theirs_label := if in_merge then "MERGE_HEAD (theirs)" else "Incoming (theirs)"
  let c1 := "" ++ ("<<<<<<< " ++ ours_label ++ "\n")
  let c2 := c1 ++ ours_plaintext
  let c3 := if !(ours_plaintext.endsWith "\n") then c2 ++ "\n" else c2
  let c4 := c3 ++ "=======\n"
  let c5 := c4 ++ theirs_plaintext
  let c6 := if !(theirs_plaintext.endsWith "\n") then c5 ++ "\n" else c5
  c6 ++ (">>>>>>> " ++ theirs_label ++ "\n")

/-- The relative path handed to git: an absolute ciphertext path is stripped
of the project root (abort when it is not inside it), a relative one is used
as is. -/
def relativePathOf (env : Env) (p : Path) : Option Path :=
  if startsWithB p "/" then env.stripRoot p else some p

/-- A git show attempt failed when it could not be spawned or exited
non-zero. -/
def primaryFailed (o : Option (Bool × Content)) : Bool :=
  match o with
  | some (succ, _) => !succ
  | none => true

/-- Resolution of one side from the primary attempt and the optional
fallback attempt; none means the flow aborts. -/
def extractSide (primary : Option (Bool × Content))
    (alt : Option (Option (Bool × Content))) : Option Content :=
  match primary with
  | some (true, out) => some out
  | _ =>
    match alt with
    | some (some (true, out)) => some out
    | _ => none

/-- The Merge command flow. -/
def runMerge (cache : CacheFile) (ciphertext : Path) (env : Env) : RunResult :=
  match cache.recipients_for_file ciphertext with
  | none => ⟨.panicked, [.resolveRecipients]⟩
  | some recipients =>
  if recipients.isEmpty then ⟨.normal 0, [.resolveRecipients]⟩ else
  match env.fs ciphertext with
  | none => ⟨.normal 0, [.resolveRecipients]⟩
  | some file_content =>
  let evs0 := [Event.resolveRecipients, Event.readFile ciphertext]
  if !(containsSub file_content "<<<<<<< ") || !(containsSub file_content ">>>>>>> ") then
    ⟨.normal 0, evs0⟩
  else
  match relativePathOf env ciphertext with
  | none => ⟨.normal 0, evs0⟩
  | some relPath =>
  let in_merge := env.mergeHead
  let in_rebase := env.rebaseApply || env.rebaseMerge
  let evs1 := evs0 ++ [Event.gitStateCheck]
  if !in_merge && !in_rebase then ⟨.normal 0, evs1⟩ else
  let oursRef := (if in_merge then "HEAD:" else ":2:") ++ relPath
  let theirsRef := (if in_merge then "MERGE_HEAD:" else ":3:") ++ relPath
  let ours_output := env.git oursRef
  let theirs_output := env.git theirsRef
  let oursAltRef := (if in_merge then "HEAD~1:" else "HEAD:") ++ relPath
  let ours_alt_output : Option (Option (Bool × Content)) :=
    if primaryFailed ours_output then some (env.git oursAltRef) else none
  let theirsAltRef : Option String :=
    if in_merge then some ("$(cat .git/MERGE_HEAD):" ++ relPath)
    else if env.origCommitPathExists then
      match env.origCommitRead with
      | some h => some (h.trim ++ ":" ++ relPath)
      | none => none
    else none
  let theirs_alt_output : Option (Option (Bool × Content)) :=
    if primaryFailed theirs_output then
      match theirsAltRef with
      | some r => some (env.git r)
      | none => none
    else none
  let evs2 := evs1 ++ [Event.gitShow oursRef, Event.gitShow theirsRef]
      ++ (if primaryFailed ours_output then [Event.gitShow oursAltRef] else [])
      ++ (match theirs_alt_output, theirsAltRef with
          | some _, some r => [Event.gitShow r]
          | _, _ => [])
  match extractSide ours_output ours_alt_output with
  | none => ⟨.normal 0, evs2⟩
  | some ours_ciphertext =>
  match extractSide theirs_output theirs_alt_output with
  | none => ⟨.normal 0, evs2⟩
  | some theirs_ciphertext =>
  if !env.oursTempWriteOk then ⟨.normal 0, evs2⟩ else
  let evs3 := evs2 ++ [Event.writeTemp ours_ciphertext]
  if !env.theirsTempWriteOk then ⟨.normal 0, evs3⟩ else
  let evs4 := evs3 ++ [Event.writeTemp theirs_ciphertext]
  match decryptContent env ours_ciphertext with
  | .abort e => ⟨e, evs4 ++ [Event.decryptAttempt]⟩
  | .ok ours_plaintext =>
  match decryptContent env theirs_ciphertext with
  | .abort e => ⟨e, evs4 ++ [Event.decryptAttempt, Event.decryptAttempt]⟩
  | .ok theirs_plaintext =>
  let evs5 := evs4 ++ [Event.decryptAttempt, Event.decryptAttempt]
  if ours_plaintext = "" ∨ theirs_plaintext = "" then ⟨.normal 0, evs5⟩ else
  let evs6 := evs5 ++ [Event.writeTemp ours_plaintext, Event.writeTemp theirs_plaintext]
  let merge_result := env.mergeFile ours_plaintext theirs_plaintext
  let evs7 := evs6 ++ [Event.runMergeFile]
  let mergedEvs : Content × List Event :=
    match merge_result with
    | some (true, stdout) => (stdout, evs7 ++ [Event.writeTemp stdout])
    | _ =>
      let doc := conflict_content in_merge ours_plaintext theirs_plaintext
      (env.mergeEditor doc, evs7 ++ [Event.writeTemp doc, Event.launchEditor])
  let merged_plaintext := mergedEvs.1
  let evs8 := mergedEvs.2
  if merged_plaintext = "" then ⟨.normal 0, evs8⟩ else
  if containsSub merged_plaintext "<<<<<<< " || containsSub merged_plaintext ">>>>>>> " then
    ⟨.normal 0, evs8⟩
  else
  match ciphertext_from_plaintext_buffer env recipients merged_plaintext with
  | .abort e => ⟨e, evs8⟩
  | .ok merged_ciphertext =>
    ⟨.normal 0, evs8 ++ [Event.writeFile ciphertext merged_ciphertext]⟩

/-! ### Helpers over traces and example fixtures -/

/-- The trace after the first editor launch. -/
def afterFirstEditor : List Event → List Event
  | [] => []
  | Event.launchEditor :: rest => rest
  | _ :: rest => afterFirstEditor rest

/-- Whether recipients are resolved again after the editor has been
launched. -/
def hasResolveAfterEditor (l : List Event) : Bool :=
  (afterFirstEditor l).contains Event.resolveRecipients

/-- The plaintext obtained for a file that exists and decrypts cleanly. -/
def decValue (env : Env) (f : Path) : Content :=
  match env.fs f with
  | some c =>
      match env.dec c with
      | .ok p => p
      | _ => ""
  | none => ""

theorem writeEvents_append (l1 l2 : List Event) :
    writeEvents (l1 ++ l2) = writeEvents l1 ++ writeEvents l2 :=
  List.filterMap_append l1 l2 _

theorem writeEvents_pfcs (env : Env) (p : Path) :
    writeEvents (plaintext_from_ciphertext_source env p).2 = [] := by
  cases h : env.fs p with
  | none => simp [plaintext_from_ciphertext_source, h, writeEvents]
  | some c =>
      cases h2 : env.dec c <;>
        simp [plaintext_from_ciphertext_source, h, h2, writeEvents]

/-- A neutral environment used as the base of the concrete examples. -/
def envBase : Env :=
  { fs := fun _ => none, dec := fun _ => .ok "", stdin := "",
    encrypt := fun _ d => "armored:" ++ d, editorResult := "",
    stripRoot := fun _ => none, mergeHead := false, rebaseApply := false,
    rebaseMerge := false, git := fun _ => none, origCommitPathExists := false,
    origCommitRead := none, oursTempWriteOk := true, theirsTempWriteOk := true,
    mergeFile := fun _ _ => none, mergeEditor := fun d => d }

/-- A second example entry: a secret whose ciphertext lives at /ct. -/
def fileCt : ArcanumFile :=
  { dest := "/run/ct", source := "/ct", directory_permissions := "0755",
    make_directory := true, group := "root", owner := "root", permissions := "0400",
    recipients := ["age1def"] }

def flakeCt : ArcanumConfig := { files := [("ct", fileCt)], admin_recipients := ["age1abc"] }

def cacheCt : CacheFile :=
  { nixos := some [], dev_shells := some [], home_manager := some [], flake := some flakeCt }

/-- A tree that references no file at all. -/
def cacheNoFiles : CacheFile :=
  { nixos := some [], dev_shells := some [], home_manager := some [],
    flake := some { files := [], admin_recipients := [] } }

/-- C9: when automatic merge fails the synthesized manual resolution document
is exactly the ours marker line, the ours plaintext newline terminated if and
only if it did not already end with a newline, the separator line, the theirs
plaintext newline terminated likewise, and the theirs marker line. -/
theorem conflict_document_format (in_merge : Bool) (ours theirs : Content) :
    conflict_content in_merge ours theirs
      = "<<<<<<< " ++ (if in_merge then "HEAD (ours)" else "Current (ours)") ++ "\n"
        ++ ours ++ (if ours.endsWith "\n" then "" else "\n")
        ++ "=======" ++ "\n"
        ++ theirs ++ (if theirs.endsWith "\n" then "" else "\n")
        ++ ">>>>>>> " ++ (if in_merge then "MERGE_HEAD (theirs)" else "Incoming (theirs)")
        ++ "\n" := by
  unfold conflict_content
  cases in_merge <;> by_cases h1 : ours.endsWith "\n" <;> by_cases h2 : theirs.endsWith "\n" <;>
    simp [h1, h2, String.append_assoc]

/-- C10: a Merge invocation on a working tree file that does not contain both
conflict marker substrings stops right after reading the file, with exit
status 0, touching no file and performing no git query at all. -/
theorem merge_requires_markers (cache : CacheFile) (ct : Path) (env : Env)
    (r : List Recipient) (content : Content)
    (h1 : cache.recipients_for_file ct = some r) (h2 : r.isEmpty = false)
    (h3 : env.fs ct = some content)
    (h4 : (containsSub content "<<<<<<< " && containsSub content ">>>>>>> ") = false) :
    runMerge cache ct env = ⟨.normal 0, [.resolveRecipients, .readFile ct]⟩ := by
  rw [Bool.and_eq_false_iff] at h4
  cases h4 with
  | inl h => simp [runMerge, h1, h2, h3, h]
  | inr h => simp [runMerge, h1, h2, h3, h]

theorem merge_requires_markers_witness :
    runMerge cacheCt "/ct" { envBase with fs := fun p => if p = "/ct" then some "AGE" else none }
      = ⟨.normal 0, [.resolveRecipients, .readFile "/ct"]⟩ :=
  merge_requires_markers cacheCt "/ct" _
    [.publicKey "age1abc", .publicKey "age1def"] "AGE"
    (by decide) (by decide) (by decide) (by decide)

/-- C6: when the content read back from the editor equals the original
plaintext, Edit ends with exit status 0 and writes no file, leaving the
ciphertext untouched. -/
theorem edit_unchanged_no_write (cache : CacheFile) (ct : Path) (env : Env)
    (r : List Recipient) (c0 original : Content)
    (h1 : cache.recipients_for_file ct = some r) (h2 : r.isEmpty = false)
    (h3 : env.fs ct = some c0) (h4 : env.dec c0 = .ok original)
    (h5 : env.editorResult = original) :
    (runEdit cache ct env).exit = .normal 0 ∧ writesOf (runEdit cache ct env) = [] := by
  have hp : plaintext_from_ciphertext_source env ct
      = (.ok original, [.readFile ct, .decryptAttempt]) := by
    simp [plaintext_from_ciphertext_source, h3, h4]
  by_cases h6 : original = ""
  · constructor <;> simp [runEdit, h1, h2, hp, h5, h6, writesOf, writeEvents]
  · constructor <;> simp [runEdit, h1, h2, hp, h5, h6, writesOf, writeEvents]

theorem edit_unchanged_no_write_witness :
    (runEdit cacheCt "/ct" { envBase with
        fs := fun p => if p = "/ct" then some "CT" else none,
        dec := fun c => if c = "CT" then .ok "hello" else .noIdentity,
        editorResult := "hello" }).exit = .normal 0
      ∧ writesOf (runEdit cacheCt "/ct" { envBase with
        fs := fun p => if p = "/ct" then some "CT" else none,
        dec := fun c => if c = "CT" then .ok "hello" else .noIdentity,
        editorResult := "hello" }) = [] :=
  edit_unchanged_no_write cacheCt "/ct" _
    [.publicKey "age1abc", .publicKey "age1def"] "CT" "hello"
    (by decide) (by decide) (by decide) (by decide) (by decide)

/-- C7: a Decrypt invocation with a file destination whose resulting plaintext
is empty writes nothing and exits 0; a missing ciphertext source yields that
empty result rather than an error. -/
theorem decrypt_empty_no_write (ct pt : Path) (env : Env) (h0 : pt ≠ "-") :
    ((plaintext_from_ciphertext_source env ct).1 = .ok "" →
        (runDecrypt ct pt env).exit = .normal 0 ∧ writesOf (runDecrypt ct pt env) = [])
      ∧ (env.fs ct = none → (plaintext_from_ciphertext_source env ct).1 = .ok "") := by
  constructor
  · intro h
    have hw := writeEvents_pfcs env ct
    rcases hpe : plaintext_from_ciphertext_source env ct with ⟨s, evs⟩
    rw [hpe] at h hw
    dsimp only at h hw
    subst h
    refine ⟨?_, ?_⟩
    · simp [runDecrypt, h0, hpe]
    · simp [writesOf, runDecrypt, h0, hpe, hw]
  · intro h
    simp [plaintext_from_ciphertext_source, h]

theorem decrypt_empty_no_write_witness :
    (runDecrypt "/ct" "/out" envBase).exit = .normal 0
      ∧ writesOf (runDecrypt "/ct" "/out" envBase) = [] :=
  (decrypt_empty_no_write "/ct" "/out" envBase (by decide)).1 (by decide)

/-- C5: when the round trip decryption of the fresh ciphertext fails, Edit
terminates abnormally and writes no file: the original ciphertext is left
untouched. -/
theorem edit_roundtrip_guard (cache : CacheFile) (ct : Path) (env : Env)
    (r : List Recipient) (c0 original : Content)
    (h1 : cache.recipients_for_file ct = some r) (h2 : r.isEmpty = false)
    (h3 : env.fs ct = some c0) (h4 : env.dec c0 = .ok original)
    (h5 : env.editorResult ≠ "") (h6 : env.editorResult ≠ original)
    (h7 : ∀ d, env.dec (env.encrypt r env.editorResult) ≠ .ok d) :
    (runEdit cache ct env).exit ≠ .normal 0 ∧ writesOf (runEdit cache ct env) = [] := by
  have hp : plaintext_from_ciphertext_source env ct
      = (.ok original, [.readFile ct, .decryptAttempt]) := by
    simp [plaintext_from_ciphertext_source, h3, h4]
  cases hdec : env.dec (env.encrypt r env.editorResult) with
  | ok d => exact absurd hdec (h7 d)
  | noIdentity =>
      constructor <;> simp [runEdit, h1, h2, hp, h5, h6, decryptContent,
        ciphertext_from_plaintext_buffer, hdec, writesOf, writeEvents]
  | badFormat =>
      constructor <;> simp [runEdit, h1, h2, hp, h5, h6, decryptContent,
        ciphertext_from_plaintext_buffer, hdec, writesOf, writeEvents]

/-- Environment of the C5 example: the re-encrypted bytes cannot be decrypted
back. -/
def envC5 : Env := { envBase with
  fs := fun p => if p = "/ct" then some "CT" else none,
  dec := fun c => if c = "CT" then .ok "hello" else .noIdentity,
  editorResult := "changed" }

theorem edit_roundtrip_guard_witness :
    (runEdit cacheCt "/ct" envC5).exit ≠ .normal 0
      ∧ writesOf (runEdit cacheCt "/ct" envC5) = [] :=
  edit_roundtrip_guard cacheCt "/ct" envC5 [.publicKey "age1abc", .publicKey "age1def"]
    "CT" "hello" (by decide) (by decide) (by decide) (by decide) (by decide) (by decide)
    (by
      intro d h
      rw [show envC5.dec
          (envC5.encrypt [.publicKey "age1abc", .publicKey "age1def"] envC5.editorResult)
          = DecResult.noIdentity from rfl] at h
      exact DecResult.noConfusion h)

/-- C4 (amended): recipients are resolved exactly once, before the editor is
launched, and that pre edit resolved set keys the re-encryption; no resolution
happens after the editor launch. -/
theorem edit_resolves_once_before_editor (cache : CacheFile) (ct : Path) (env : Env)
    (r : List Recipient) (c0 original : Content)
    (h1 : cache.recipients_for_file ct = some r) (h2 : r.isEmpty = false)
    (h3 : env.fs ct = some c0) (h4 : env.dec c0 = .ok original)
    (h5 : env.editorResult ≠ "") (h6 : env.editorResult ≠ original)
    (h7 : ∃ d, env.dec (env.encrypt r env.editorResult) = .ok d) :
    (runEdit cache ct env).events
        = [.resolveRecipients, .readFile ct, .decryptAttempt, .writeTemp original,
            .launchEditor, .writeTemp (env.encrypt r env.editorResult), .decryptAttempt,
            .writeFile ct (env.encrypt r env.editorResult)]
      ∧ hasResolveAfterEditor (runEdit cache ct env).events = false
      ∧ writesOf (runEdit cache ct env) = [(ct, env.encrypt r env.editorResult)] := by
  obtain ⟨d, hdec⟩ := h7
  have hp : plaintext_from_ciphertext_source env ct
      = (.ok original, [.readFile ct, .decryptAttempt]) := by
    simp [plaintext_from_ciphertext_source, h3, h4]
  have hev : (runEdit cache ct env).events
      = [.resolveRecipients, .readFile ct, .decryptAttempt, .writeTemp original,
          .launchEditor, .writeTemp (env.encrypt r env.editorResult), .decryptAttempt,
          .writeFile ct (env.encrypt r env.editorResult)] := by
    simp [runEdit, h1, h2, hp, h5, h6, ciphertext_from_plaintext_buffer,
      decryptContent, hdec]
  refine ⟨hev, ?_, ?_⟩
  · rw [hev]; rfl
  · rw [writesOf, hev]; rfl

/-- Environment of the C4 example: the editor changes the content and the
round trip decryption succeeds. -/
def envC4 : Env := { envBase with
  fs := fun p => if p = "/ct" then some "CT" else none,
  dec := fun c => if c = "CT" then .ok "hello" else
    if c = "armored:changed" then .ok "changed" else .noIdentity,
  editorResult := "changed" }

/-- C4 counterexample: on a concrete changed edit the trace holds no recipient
resolution after the editor launch; the single resolution happened before the
editor, so the claimed post edit re-resolution does not occur. -/
theorem edit_no_post_edit_resolution_cex :
    (runEdit cacheCt "/ct" envC4).events
        = [.resolveRecipients, .readFile "/ct", .decryptAttempt, .writeTemp "hello",
            .launchEditor, .writeTemp "armored:changed", .decryptAttempt,
            .writeFile "/ct" "armored:changed"]
      ∧ hasResolveAfterEditor (runEdit cacheCt "/ct" envC4).events = false := by
  decide

theorem edit_resolves_once_before_editor_witness :
    (runEdit cacheCt "/ct" envC4).events
        = [.resolveRecipients, .readFile "/ct", .decryptAttempt, .writeTemp "hello",
            .launchEditor, .writeTemp "armored:changed", .decryptAttempt,
            .writeFile "/ct" "armored:changed"]
      ∧ hasResolveAfterEditor (runEdit cacheCt "/ct" envC4).events = false
      ∧ writesOf (runEdit cacheCt "/ct" envC4) = [("/ct", "armored:changed")] :=
  edit_resolves_once_before_editor cacheCt "/ct" envC4
    [.publicKey "age1abc", .publicKey "age1def"] "CT" "hello"
    (by decide) (by decide) (by decide) (by decide) (by decide) (by decide)
    ⟨"changed", by decide⟩

/-- C3 (amended): the abort conditions named by the claim — no recipients for
Encrypt or Merge, not being inside a merge or rebase, blob extraction failing
on both attempts, an empty merged result, and a merged result still holding
conflict markers — all end the process with exit status 0 (a plain return from
main) while writing no file; exit status 0 is therefore not exclusive to
success.  Non-zero termination happens elsewhere: decrypt authorization
failure, Edit without recipients, evaluator failure, and panics. -/
theorem abort_conditions_exit_zero :
    (∀ (cache : CacheFile) (ct : Path) (env : Env) (r : List Recipient),
        cache.recipients_for_file ct = some r → r.isEmpty = true →
        (runEncrypt cache "-" ct env).exit = .normal 0
          ∧ writesOf (runEncrypt cache "-" ct env) = [])
    ∧ (∀ (cache : CacheFile) (ct : Path) (env : Env) (r : List Recipient),
        cache.recipients_for_file ct = some r → r.isEmpty = true →
        (runMerge cache ct env).exit = .normal 0 ∧ writesOf (runMerge cache ct env) = [])
    ∧ (∀ (cache : CacheFile) (ct : Path) (env : Env) (r : List Recipient)
        (content : Content) (rel : Path),
        cache.recipients_for_file ct = some r → r.isEmpty = false →
        env.fs ct = some content →
        containsSub content "<<<<<<< " = true → containsSub content ">>>>>>> " = true →
        relativePathOf env ct = some rel →
        env.mergeHead = false → env.rebaseApply = false → env.rebaseMerge = false →
        (runMerge cache ct env).exit = .normal 0 ∧ writesOf (runMerge cache ct env) = [])
    ∧ (∀ (cache : CacheFile) (ct : Path) (env : Env) (r : List Recipient)
        (content : Content) (rel : Path) (e1 e2 : Content),
        cache.recipients_for_file ct = some r → r.isEmpty = false →
        env.fs ct = some content →
        containsSub content "<<<<<<< " = true → containsSub content ">>>>>>> " = true →
        relativePathOf env ct = some rel →
        env.mergeHead = true →
        env.git ("HEAD:" ++ rel) = some (false, e1) →
        env.git ("HEAD~1:" ++ rel) = some (false, e2) →
        (runMerge cache ct env).exit = .normal 0 ∧ writesOf (runMerge cache ct env) = [])
    ∧ (∀ (cache : CacheFile) (ct : Path) (env : Env) (r : List Recipient)
        (content : Content) (rel : Path) (oc tc op tp : Content),
        cache.recipients_for_file ct = some r → r.isEmpty = false →
        env.fs ct = some content →
        containsSub content "<<<<<<< " = true → containsSub content ">>>>>>> " = true →
        relativePathOf env ct = some rel →
        env.mergeHead = true →
        env.git ("HEAD:" ++ rel) = some (true, oc) →
        env.git ("MERGE_HEAD:" ++ rel) = some (true, tc) →
        env.oursTempWriteOk = true → env.theirsTempWriteOk = true →
        env.dec oc = .ok op → env.dec tc = .ok tp → op ≠ "" → tp ≠ "" →
        env.mergeFile op tp = some (true, "") →
        (runMerge cache ct env).exit = .normal 0 ∧ writesOf (runMerge cache ct env) = [])
    ∧ (∀ (cache : CacheFile) (ct : Path) (env : Env) (r : List Recipient)
        (content : Content) (rel : Path) (oc tc op tp m : Content),
        cache.recipients_for_file ct = some r → r.isEmpty = false →
        env.fs ct = some content →
        containsSub content "<<<<<<< " = true → containsSub content ">>>>>>> " = true →
        relativePathOf env ct = some rel →
        env.mergeHead = true →
        env.git ("HEAD:" ++ rel) = some (true, oc) →
        env.git ("MERGE_HEAD:" ++ rel) = some (true, tc) →
        env.oursTempWriteOk = true → env.theirsTempWriteOk = true →
        env.dec oc = .ok op → env.dec tc = .ok tp → op ≠ "" → tp ≠ "" →
        env.mergeFile op tp = some (true, m) → m ≠ "" →
        containsSub m "<<<<<<< " = true →
        (runMerge cache ct env).exit = .normal 0 ∧ writesOf (runMerge cache ct env) = []) := by
  refine ⟨?_, ?_, ?_, ?_, ?_, ?_⟩
  · intro cache ct env r h1 h2
    constructor <;> simp [runEncrypt, h1, h2, writesOf, writeEvents]
  · intro cache ct env r h1 h2
    constructor <;> simp [runMerge, h1, h2, writesOf, writeEvents]
  · intro cache ct env r content rel h1 h2 h3 hm1 hm2 hrel hmh hra hrm
    constructor <;>
      simp [runMerge, h1, h2, h3, hm1, hm2, hrel, hmh, hra, hrm, writesOf, writeEvents]
  · intro cache ct env r content rel e1 e2 h1 h2 h3 hm1 hm2 hrel hmh ho ha
    rcases hth : env.git ("MERGE_HEAD:" ++ rel) with _ | ⟨succ, out⟩
    · constructor <;>
        simp [runMerge, h1, h2, h3, hm1, hm2, hrel, hmh, ho, ha, hth, primaryFailed,
          extractSide, writesOf, writeEvents]
    · cases succ
      · constructor <;>
          simp [runMerge, h1, h2, h3, hm1, hm2, hrel, hmh, ho, ha, hth, primaryFailed,
            extractSide, writesOf, writeEvents]
      · constructor <;>
          simp [runMerge, h1, h2, h3, hm1, hm2, hrel, hmh, ho, ha, hth, primaryFailed,
            extractSide, writesOf, writeEvents]
  · intro cache ct env r content rel oc tc op tp h1 h2 h3 hm1 hm2 hrel hmh ho hth hwo hwt
      hdo hdt hop htp hmf
    constructor <;>
      simp [runMerge, h1, h2, h3, hm1, hm2, hrel, hmh, ho, hth, hwo, hwt, primaryFailed,
        extractSide, decryptContent, hdo, hdt, hop, htp, hmf, writesOf, writeEvents]
  · intro cache ct env r content rel oc tc op tp m h1 h2 h3 hm1 hm2 hrel hmh ho hth hwo hwt
      hdo hdt hop htp hmf hme hmm
    constructor <;>
      simp [runMerge, h1, h2, h3, hm1, hm2, hrel, hmh, ho, hth, hwo, hwt, primaryFailed,
        extractSide, decryptContent, hdo, hdt, hop, htp, hmf, hme, hmm, writesOf, writeEvents]

/-- C3 counterexample: an Encrypt invocation that aborts because no recipients
resolve ends the process with exit status 0, where the claim demands a
non-zero status. -/
theorem abort_exit_nonzero_cex :
    cacheNoFiles.recipients_for_file "/ct" = some []
      ∧ (runEncrypt cacheNoFiles "-" "/ct" envBase).exit = .normal 0 := by
  decide

theorem abort_conditions_exit_zero_witness :
    (runEncrypt cacheNoFiles "-" "/ct" envBase).exit = .normal 0
      ∧ writesOf (runEncrypt cacheNoFiles "-" "/ct" envBase) = [] :=
  abort_conditions_exit_zero.1 cacheNoFiles "/ct" envBase [] (by decide) (by decide)

theorem writeEvents_flatMap (g : Path → List Event) (l : List Path) :
    writeEvents (l.flatMap g) = l.flatMap (fun f => writeEvents (g f)) := by
  induction l with
  | nil => rfl
  | cons f rest ih => simp [List.flatMap_cons, writeEvents_append, ih]

/-- The per file trace of the bulk rekey loop, when every listed file exists
and decrypts cleanly: a skip notice for files resolving to no recipients, a
write for the others, and normal termination with status 0. -/
theorem rekeyLoop_trace (cache : CacheFile) (env : Env) :
    ∀ (fl : List Path) (evs : List Event),
      (∀ f ∈ fl, ∃ c p, env.fs f = some c ∧ env.dec c = .ok p) →
      (∀ f ∈ fl, ∃ r, cache.recipients_for_file f = some r) →
      rekeyLoop cache env fl evs
        = ⟨.normal 0, evs ++ fl.flatMap (fun f =>
            [Event.readFile f, Event.decryptAttempt, Event.resolveRecipients]
              ++ (match cache.recipients_for_file f with
                  | some r => if r.isEmpty then [Event.skipNotice f]
                      else [Event.writeFile f (env.encrypt r (decValue env f))]
                  | none => []))⟩ := by
  intro fl
  induction fl with
  | nil => intro evs h1 h2; simp [rekeyLoop]
  | cons f rest ih =>
      intro evs h1 h2
      obtain ⟨c, p, hfs, hdec⟩ := h1 f (List.mem_cons_self f rest)
      obtain ⟨r, hr⟩ := h2 f (List.mem_cons_self f rest)
      have hp : plaintext_from_ciphertext_source env f
          = (.ok p, [.readFile f, .decryptAttempt]) := by
        simp [plaintext_from_ciphertext_source, hfs, hdec]
      have hdv : decValue env f = p := by simp [decValue, hfs, hdec]
      have h1r : ∀ g ∈ rest, ∃ c2 p2, env.fs g = some c2 ∧ env.dec c2 = .ok p2 :=
        fun g hg => h1 g (List.mem_cons_of_mem f hg)
      have h2r : ∀ g ∈ rest, ∃ r2, cache.recipients_for_file g = some r2 :=
        fun g hg => h2 g (List.mem_cons_of_mem f hg)
      by_cases hre : r.isEmpty
      · have hre2 : r = [] := List.isEmpty_iff.mp hre
        rw [show rekeyLoop cache env (f :: rest) evs
            = rekeyLoop cache env rest
                (evs ++ [Event.readFile f, Event.decryptAttempt]
                  ++ [Event.resolveRecipients, Event.skipNotice f]) from by
              simp [rekeyLoop, hp, hr, hre]]
        rw [ih _ h1r h2r]
        simp [hr, hre, hre2, hdv, List.flatMap_cons, List.append_assoc]
      · have hre2 : ¬r = [] := fun h => hre (by simp [h])
        rw [show rekeyLoop cache env (f :: rest) evs
            = rekeyLoop cache env rest
                (evs ++ [Event.readFile f, Event.decryptAttempt]
                  ++ [Event.resolveRecipients,
                      Event.writeFile f (env.encrypt r p)]) from by
              simp [rekeyLoop, hp, hr, hre, ciphertext_from_plaintext_buffer]]
        rw [ih _ h1r h2r]
        simp [hr, hre, hre2, hdv, List.flatMap_cons, List.append_assoc]

/-- C8 (amended): in a bulk rekey over the enumerated source paths, when every
enumerated file exists and decrypts, a file resolving to an empty recipient
set is skipped with a logged notice, every other file is re-encrypted and
overwritten, and the run still ends with exit status 0: the partial failure is
reported but not reflected in the exit status. -/
theorem rekey_all_report_and_continue (cache : CacheFile) (env : Env)
    (h1 : ∀ f ∈ filesToRekey cache env, ∃ c p, env.fs f = some c ∧ env.dec c = .ok p)
    (h2 : ∀ f ∈ filesToRekey cache env, ∃ r, cache.recipients_for_file f = some r) :
    (runRekeyAll cache env).exit = .normal 0
      ∧ writesOf (runRekeyAll cache env)
        = (filesToRekey cache env).flatMap (fun f =>
            match cache.recipients_for_file f with
            | some r => if r.isEmpty then [] else [(f, env.encrypt r (decValue env f))]
            | none => [])
      ∧ ∀ f ∈ filesToRekey cache env, cache.recipients_for_file f = some [] →
          Event.skipNotice f ∈ (runRekeyAll cache env).events := by
  have hpt : ∀ f : Path,
      writeEvents ([Event.readFile f, Event.decryptAttempt, Event.resolveRecipients]
          ++ (match cache.recipients_for_file f with
              | some r => if r.isEmpty then [Event.skipNotice f]
                  else [Event.writeFile f (env.encrypt r (decValue env f))]
              | none => []))
        = (match cache.recipients_for_file f with
            | some r => if r.isEmpty then [] else [(f, env.encrypt r (decValue env f))]
            | none => []) := by
    intro f
    rcases hf : cache.recipients_for_file f with _ | r
    · simp [writeEvents]
    · by_cases hre : r.isEmpty <;> simp [writeEvents, hre]
  unfold runRekeyAll
  by_cases hempty : (filesToRekey cache env).isEmpty
  · have hnil : filesToRekey cache env = [] := List.isEmpty_iff.mp hempty
    rw [hnil] at h1 h2 ⊢
    simp [writesOf, writeEvents]
  · rw [if_neg hempty, rekeyLoop_trace cache env _ [] h1 h2]
    refine ⟨rfl, ?_, ?_⟩
    · simp only [writesOf, List.nil_append, writeEvents_flatMap]
      simp only [hpt]
    · intro f hf hres
      simp only [List.nil_append]
      refine List.mem_flatMap.mpr ⟨f, hf, ?_⟩
      simp [hres]

/-- Fixtures of the C8 example: two declared secrets, one of which resolves
to no recipients at all. -/
def fileA : ArcanumFile :=
  { dest := "/run/a", source := "/a", directory_permissions := "0755",
    make_directory := true, group := "root", owner := "root", permissions := "0400",
    recipients := ["age1def"] }

def fileB : ArcanumFile :=
  { dest := "/run/b", source := "/b", directory_permissions := "0755",
    make_directory := true, group := "root", owner := "root", permissions := "0400",
    recipients := [] }

def cacheC8 : CacheFile :=
  { nixos := some [], dev_shells := some [], home_manager := some [],
    flake := some { files := [("a", fileA), ("b", fileB)], admin_recipients := [] } }

def envC8 : Env := { envBase with
  fs := fun p => if p = "/a" then some "CA" else if p = "/b" then some "CB" else none,
  dec := fun c => .ok ("P" ++ c) }

/-- C8 counterexample: the bulk rekey run in which /b resolves to no
recipients re-encrypts /a, logs the skip of /b, and ends with exit status 0 —
the claim demands a non-zero exit status. -/
theorem rekey_all_exit_zero_cex :
    cacheC8.recipients_for_file "/b" = some []
      ∧ writesOf (runRekeyAll cacheC8 envC8) = [("/a", "armored:PCA")]
      ∧ Event.skipNotice "/b" ∈ (runRekeyAll cacheC8 envC8).events
      ∧ (runRekeyAll cacheC8 envC8).exit = .normal 0 := by
  decide

theorem rekey_all_report_and_continue_witness :
    (runRekeyAll cacheC8 envC8).exit = .normal 0
      ∧ writesOf (runRekeyAll cacheC8 envC8)
        = (filesToRekey cacheC8 envC8).flatMap (fun f =>
            match cacheC8.recipients_for_file f with
            | some r => if r.isEmpty then [] else [(f, envC8.encrypt r (decValue envC8 f))]
            | none => [])
      ∧ ∀ f ∈ filesToRekey cacheC8 envC8, cacheC8.recipients_for_file f = some [] →
          Event.skipNotice f ∈ (runRekeyAll cacheC8 envC8).events :=
  rekey_all_report_and_continue cacheC8 envC8
    (by
      intro f hf
      fin_cases hf <;> exact ⟨_, _, rfl, rfl⟩)
    (by
      intro f hf
      fin_cases hf <;> exact ⟨_, rfl⟩)

end Arcanum
